import Mathlib

/-!
Verification of the coedit timeline editor core against its specification.

Times, coordinates and opacities are JavaScript numbers in the source; they
are modelled as exact rationals (`ℚ`).  Fields such as `id` and `name` are
modelled as `String`.  The tagged union `Element` of src/types/element.ts is
modelled as a flat record carrying the base fields plus the media fields
(`trimIn`, `trimOut`, `playbackRate`), which the source itself reads through
loose casts (`(el as any).trimIn || 0`); for non-media elements these model
fields default to `0`/`1`, matching the `|| 0` / `|| 1` reads.
-/

/-- Modelled from the spec: the source imports `clamp` from src/utils/math.ts,
which is not present under src/.  Spec section 2 lists the Time Utilities as
"pure numeric helpers: clamping", and spec section 4.2 uses
`clamp(value, lo, hi)` to bound a value into `[lo, hi]`. -/
def clamp (v lo hi : ℚ) : ℚ := max lo (min v hi)

/-- JavaScript `x || d` on numbers (`0` — and only `0` in this exact model —
is falsy), as used in `(el as any).trimIn || 0` and `el.playbackRate || 1`. -/
def jsOr (x d : ℚ) : ℚ := if x = 0 then d else x

/-- JavaScript `Math.round`: nearest integer, halves rounded up. -/
def jsRound (q : ℚ) : ℚ := ((⌊q + (1/2 : ℚ)⌋ : ℤ) : ℚ)

/-- JavaScript `Math.abs`. -/
def jsAbs (q : ℚ) : ℚ := if q < 0 then -q else q

/-- Truncation toward zero, as JavaScript's `%` uses for its quotient. -/
def jsTrunc (q : ℚ) : ℤ := if q < 0 then ⌈q⌉ else ⌊q⌋

/-- JavaScript `a % b` on numbers: the remainder `a - b * trunc(a / b)`,
with the sign of the dividend. -/
def jsMod (a b : ℚ) : ℚ := a - b * ((jsTrunc (a / b) : ℤ) : ℚ)

/-- Element discriminant (src/types/element.ts `ElementType`). -/
inductive ElementType
  | text | shape | circle | image | video | audio | subtitle
deriving DecidableEq

/-- Entry/exit animation kinds (src/types/element.ts `AnimationType`). -/
inductive AnimationType
  | none | fadeIn | fadeOut | slideLeft | slideRight | slideUp
  | scaleUp | scaleDown | rotateIn | bounceIn | typewriter | blurIn | glitch
deriving DecidableEq

/-- Easing kinds (src/types/element.ts `EasingType`). -/
inductive EasingType
  | linear | easeIn | easeOut | easeInOut | bounce
deriving DecidableEq

/-- Timeline element (src/types/element.ts).  The source `rotation` field is
named `rotationDeg` here.  String-typed styling fields that no claim touches
(`fill`, `stroke`, colours, …) are represented by the retained `filter`,
`blendMode`, `content` and `trackId` fields. -/
structure Element where
  id : String
  etype : ElementType
  name : String
  x : ℚ
  y : ℚ
  width : ℚ
  height : ℚ
  rotationDeg : ℚ
  opacity : ℚ
  visible : Bool
  locked : Bool
  startTime : ℚ
  duration : ℚ
  animation : AnimationType
  animationExit : AnimationType
  animDuration : ℚ
  animExitDuration : ℚ
  easing : EasingType
  filter : String
  blendMode : String
  trackId : String
  content : String
  trimIn : ℚ
  trimOut : ℚ
  playbackRate : ℚ
deriving DecidableEq

/-- A `Partial<Element>` patch as passed to `updateElement` by the editing
gestures (they patch only `startTime`, `duration`, `trimIn`, `x`, `y`). -/
structure Patch where
  startTime : Option ℚ := Option.none
  duration : Option ℚ := Option.none
  trimIn : Option ℚ := Option.none
  x : Option ℚ := Option.none
  y : Option ℚ := Option.none
deriving DecidableEq

/-- JavaScript spread merge `{ ...e, ...patch }` restricted to patched fields. -/
def applyPatch (e : Element) (p : Patch) : Element :=
  { e with
    startTime := p.startTime.getD e.startTime
    duration := p.duration.getD e.duration
    trimIn := p.trimIn.getD e.trimIn
    x := p.x.getD e.x
    y := p.y.getD e.y }

/-- `updateElement(id, patch)` from src/store/elementStore.ts: map over the
list, merging the patch into the element with the matching id.  The source
performs no validation or clamping here. -/
def updateElement (els : List Element) (id : String) (p : Patch) : List Element :=
  els.map fun e => if e.id = id then applyPatch e p else e

/-- A sequence of `updateElement` calls applied in order. -/
def applyUpdates (els : List Element) (us : List (String × Patch)) : List Element :=
  us.foldl (fun l u => updateElement l u.1 u.2) els

/-- Spec section 3 invariant 1: `duration ≥ (1/10 : ℚ)` and `startTime ≥ 0`. -/
def timingInvariant (els : List Element) : Prop :=
  ∀ e ∈ els, (1/10 : ℚ) ≤ e.duration ∧ 0 ≤ e.startTime


/-- `applyEasing` from src/utils/easing.ts (all constants are exact in `ℚ`). -/
def applyEasing (t : ℚ) (ease : EasingType) : ℚ :=
  match ease with
  | .easeIn => t * t
  | .easeOut => t * (2 - t)
  | .easeInOut => if t < (1/2 : ℚ) then 2 * t * t else -1 + (4 - 2 * t) * t
  | .bounce =>
    let n : ℚ := (121/16 : ℚ)
    let d : ℚ := (11/4 : ℚ)
    if t < 1 / d then n * t * t
    else if t < 2 / d then (n * (t - (3/2 : ℚ) / d) * (t - (3/2 : ℚ) / d) + (3/4 : ℚ))
    else if t < (5/2 : ℚ) / d then (n * (t - (9/4 : ℚ) / d) * (t - (9/4 : ℚ) / d) + (15/16 : ℚ))
    else (n * (t - (21/8 : ℚ) / d) * (t - (21/8 : ℚ) / d) + (63/64 : ℚ))
  | .linear => t

/-- The opacity channel of a CSS animation style.  `Option.none` means the
style object carries no `opacity` key (the `typewriter` and `none` cases).
The translate/scale/blur channels are not needed by any claim and are not
modelled. -/
structure AnimStyle where
  opacity : Option ℚ
deriving DecidableEq

/-- Opacity channel of `getAnimTransform` (src/utils/animation.ts). -/
def getAnimTransform (anim : AnimationType) (progress : ℚ) (easing : EasingType) : AnimStyle :=
  let t := applyEasing (clamp progress 0 1) easing
  match anim with
  | .fadeIn => ⟨some t⟩
  | .fadeOut => ⟨some (1 - t)⟩
  | .slideLeft => ⟨some t⟩
  | .slideRight => ⟨some t⟩
  | .slideUp => ⟨some t⟩
  | .scaleUp => ⟨some t⟩
  | .scaleDown => ⟨some t⟩
  | .rotateIn => ⟨some t⟩
  | .bounceIn => ⟨some t⟩
  | .typewriter => ⟨Option.none⟩
  | .blurIn => ⟨some t⟩
  | .glitch => ⟨some (if (1/10 : ℚ) < t then 1 else 0)⟩
  | .none => ⟨Option.none⟩

/-- Opacity channel of `getExitAnimTransform` (src/utils/animation.ts). -/
def getExitAnimTransform (anim : AnimationType) (progress : ℚ) (easing : EasingType) : AnimStyle :=
  let t := applyEasing (clamp progress 0 1) easing
  match anim with
  | .fadeIn => ⟨some (1 - t)⟩
  | .fadeOut => ⟨some (1 - t)⟩
  | .slideLeft => ⟨some (1 - t)⟩
  | .slideRight => ⟨some (1 - t)⟩
  | .slideUp => ⟨some (1 - t)⟩
  | .scaleUp => ⟨some (1 - t)⟩
  | .scaleDown => ⟨some (1 - t)⟩
  | .rotateIn => ⟨some (1 - t)⟩
  | .bounceIn => ⟨some (1 - t)⟩
  | .typewriter => ⟨Option.none⟩
  | .blurIn => ⟨some (1 - t)⟩
  | .glitch => ⟨some (if t < (9/10 : ℚ) then 1 else 0)⟩
  | .none => ⟨Option.none⟩

/-- The shared skip test `currentTime >= el.startTime && currentTime <
el.startTime + el.duration` of both render paths. -/
def isInTime (el : Element) (t : ℚ) : Bool :=
  decide (el.startTime ≤ t) && decide (t < el.startTime + el.duration)

/-- Per-element output of a render path: placement, base rotation and the
final opacity handed to the drawing backend. -/
structure RenderProps where
  x : ℚ
  y : ℚ
  width : ℚ
  height : ℚ
  rotationDeg : ℚ
  opacity : ℚ
deriving DecidableEq

/-- Per-element behaviour of `renderFrameWithAssets`
(src/services/exportPipeline.ts, lines 179–187): skip when invisible or out
of the timing window, otherwise draw at the element's static transform with
`globalAlpha = el.opacity`.  This path never consults
`getAnimTransform`/`getExitAnimTransform`. -/
def exportRenderElement (el : Element) (t : ℚ) : Option RenderProps :=
  if !el.visible then Option.none
  else if !isInTime el t then Option.none
  else some ⟨el.x, el.y, el.width, el.height, el.rotationDeg, el.opacity⟩

/-- The merged `animStyle` opacity of the preview `renderElement`
(src/components/canvas/CanvasViewport.tsx, lines 96–112): the entry style is
computed when an entry animation is set and the element is in time; the exit
style is spread over it (so an exit opacity key overrides the entry one) when
an exit animation is set and `timeToEnd ≤ animExitDuration`. -/
def previewAnimOpacity (el : Element) (t : ℚ) : Option ℚ :=
  let entry : Option ℚ :=
    if el.animation ≠ AnimationType.none ∧ isInTime el t = true then
      (getAnimTransform el.animation (clamp ((t - el.startTime) / el.animDuration) 0 1) el.easing).opacity
    else Option.none
  if el.animationExit ≠ AnimationType.none ∧ isInTime el t = true then
    let timeToEnd := el.startTime + el.duration - t
    if timeToEnd ≤ el.animExitDuration then
      match (getExitAnimTransform el.animationExit (clamp (1 - timeToEnd / el.animExitDuration) 0 1) el.easing).opacity with
      | some o => some o
      | Option.none => entry
    else entry
  else entry

/-- Per-element behaviour of the preview `renderElement`
(src/components/canvas/CanvasViewport.tsx, lines 90–135): skip when
invisible; skip when out of the timing window only if `isPlaying`; the final
opacity is `animStyle.opacity !== undefined ? animStyle.opacity :
el.opacity`. -/
def previewRenderElement (isPlaying : Bool) (el : Element) (t : ℚ) : Option RenderProps :=
  if !el.visible then Option.none
  else if !isInTime el t && isPlaying then Option.none
  else
    some ⟨el.x, el.y, el.width, el.height, el.rotationDeg,
      (previewAnimOpacity el t).getD el.opacity⟩

/-- One full export-path frame: the drawn elements in array order with their
render properties (src/services/exportPipeline.ts `renderFrameWithAssets`). -/
def renderFrameWithAssets (els : List Element) (t : ℚ) : List (String × RenderProps) :=
  els.filterMap fun el => (exportRenderElement el t).map fun p => (el.id, p)

/-- One full preview frame (src/components/canvas/CanvasViewport.tsx,
`elements.map(renderElement)` keeping the non-skipped elements). -/
def previewFrame (isPlaying : Bool) (els : List Element) (t : ℚ) : List (String × RenderProps) :=
  els.filterMap fun el => (previewRenderElement isPlaying el t).map fun p => (el.id, p)

/-- The snapping context read by `snapTime`
(src/components/timeline/TimelinePanel.tsx): the snap toggle, the
pixels-per-second zoom, the playhead position and the element list. -/
structure SnapCtx where
  snapEnabled : Bool
  timelineZoom : ℚ
  currentTime : ℚ
  elements : List Element

/-- `pxToTime` from src/components/timeline/TimelinePanel.tsx. -/
def pxToTime (timelineZoom px : ℚ) : ℚ := px / timelineZoom

/-- One candidate test of `snapTime`: keep the candidate `c` if its distance
to `t` is strictly below the current best distance. -/
def snapStep (t : ℚ) (b : ℚ × ℚ) (c : ℚ) : ℚ × ℚ :=
  if jsAbs (t - c) < b.2 then (c, jsAbs (t - c)) else b

/-- The per-element body of the clip-edge loop of `snapTime`: skip the
excluded element, otherwise test its start edge then its end edge. -/
def snapEdgeStep (t : ℚ) (ignoreId : Option String) (b : ℚ × ℚ) (el : Element) : ℚ × ℚ :=
  if ignoreId = some el.id then b
  else snapStep t (snapStep t b el.startTime) (el.startTime + el.duration)

/-- `snapTime(t, ignoreId)` from src/components/timeline/TimelinePanel.tsx,
lines 75–112: with snapping enabled, scan the playhead, every other
element's start and end edges, and `Math.round(t)`, keeping a candidate only
when strictly closer than the best so far, seeded with the threshold
`pxToTime(8)`.  The final ruler-mark test returns the mark without updating
the best distance, exactly as the source does. -/
def snapTime (ctx : SnapCtx) (t : ℚ) (ignoreId : Option String) : ℚ :=
  if !ctx.snapEnabled then t
  else
    let b1 := snapStep t (t, pxToTime ctx.timelineZoom 8) ctx.currentTime
    let b2 := ctx.elements.foldl (snapEdgeStep t ignoreId) b1
    if jsAbs (t - jsRound t) < b2.2 then jsRound t else b2.1

/-- All snap candidates in the scan order of `snapTime`: playhead first, then
the start/end edges of every non-excluded element in array order, then the
nearest whole-second ruler mark. -/
def snapCandidates (ctx : SnapCtx) (t : ℚ) (ignoreId : Option String) : List ℚ :=
  ctx.currentTime ::
    ((ctx.elements.filter fun el => !(ignoreId = some el.id : Bool)).flatMap
      fun el => [el.startTime, el.startTime + el.duration]) ++ [jsRound t]

/-- The generic strict-improvement scan that `snapTime` instantiates. -/
def snapFold (t : ℚ) (cands : List ℚ) (b : ℚ × ℚ) : ℚ × ℚ :=
  cands.foldl (snapStep t) b

/-- The reference values captured in `dragStartRef` at gesture start
(src/components/timeline/TimelinePanel.tsx, `onClipMouseDown`). -/
structure DragStart where
  startTime : ℚ
  duration : ℚ
  trimIn : ℚ

/-- The `trim-left` branch of `onTimelineMouseMove`
(src/components/timeline/TimelinePanel.tsx, lines 203–215): clamp the moved
start into `[0, refStart + refDuration − 0.1]`, snap it, re-clamp it, derive
the duration so the end edge is preserved, and for video/audio shift
`trimIn` by the applied start delta, floored at `0`.  The snap context is
built over the current element list, as in the source component. -/
def trimLeftDrag (snapEnabled : Bool) (timelineZoom currentTime : ℚ) (dragId : String)
    (ref : DragStart) (deltaTime : ℚ) (els : List Element) : List Element :=
  match els.find? fun e => e.id = dragId with
  | Option.none => els
  | some el =>
    let ctx : SnapCtx :=
      { snapEnabled := snapEnabled, timelineZoom := timelineZoom
        currentTime := currentTime, elements := els }
    let maxStart := ref.startTime + ref.duration - (1/10 : ℚ)
    let newStart1 := clamp (ref.startTime + deltaTime) 0 maxStart
    let newStart := clamp (snapTime ctx newStart1 (some dragId)) 0 maxStart
    let newDuration := ref.duration - (newStart - ref.startTime)
    let els1 := updateElement els dragId
      { startTime := some newStart, duration := some (max (1/10 : ℚ) newDuration) }
    if el.etype = ElementType.video ∨ el.etype = ElementType.audio then
      updateElement els1 dragId
        { trimIn := some (max 0 (ref.trimIn + (newStart - ref.startTime))) }
    else els1

/-- The start value a trim-left drag lands on: the raw moved start clamped
into `[0, refStart + refDuration − 0.1]`, snapped, and re-clamped to the
same range. -/
def trimLeftNewStart (snapEnabled : Bool) (timelineZoom currentTime : ℚ) (dragId : String)
    (ref : DragStart) (deltaTime : ℚ) (els : List Element) : ℚ :=
  clamp
    (snapTime
      { snapEnabled := snapEnabled, timelineZoom := timelineZoom
        currentTime := currentTime, elements := els }
      (clamp (ref.startTime + deltaTime) 0 (ref.startTime + ref.duration - (1/10 : ℚ)))
      (some dragId))
    0 (ref.startTime + ref.duration - (1/10 : ℚ))

/-- `bladeClip(el, mouseTime)` from src/components/timeline/TimelinePanel.tsx,
lines 128–143: a click strictly inside the element's window truncates its
duration to the split point and appends a clone with a fresh id, the name
suffixed with " (2)", `startTime = mouseTime`, the remaining duration, and —
for video/audio — `trimIn` advanced by the split offset. -/
def bladeClip (freshId : String) (els : List Element) (el : Element) (mouseTime : ℚ) : List Element :=
  if mouseTime ≤ el.startTime ∨ el.startTime + el.duration ≤ mouseTime then els
  else
    let splitPoint := mouseTime - el.startTime
    let els1 := updateElement els el.id { duration := some splitPoint }
    let secondBase : Element :=
      { el with
        id := freshId
        name := el.name ++ " (2)"
        startTime := mouseTime
        duration := el.duration - splitPoint }
    let secondHalf :=
      if secondBase.etype = ElementType.video ∨ secondBase.etype = ElementType.audio then
        { secondBase with trimIn := jsOr el.trimIn 0 + splitPoint }
      else secondBase
    els1 ++ [secondHalf]

/-- The per-selected-element body of `splitAtPlayhead`
(src/components/timeline/TimelinePanel.tsx, lines 239–260), which repeats
the `bladeClip` computation at the playhead time. -/
def splitAtPlayheadOne (freshId : String) (currentTime : ℚ) (els : List Element) (el : Element) : List Element :=
  if currentTime ≤ el.startTime ∨ el.startTime + el.duration ≤ currentTime then els
  else
    let splitPoint := currentTime - el.startTime
    let els1 := updateElement els el.id { duration := some splitPoint }
    let secondBase : Element :=
      { el with
        id := freshId
        name := el.name ++ " (2)"
        startTime := currentTime
        duration := el.duration - splitPoint }
    let secondHalf :=
      if secondBase.etype = ElementType.video ∨ secondBase.etype = ElementType.audio then
        { secondBase with trimIn := jsOr el.trimIn 0 + splitPoint }
      else secondBase
    els1 ++ [secondHalf]

/-- One export frame: the render time and the seeks issued (and awaited)
before the frame is drawn and captured. -/
structure ExportFrame where
  time : ℚ
  seeks : List (String × ℚ)
deriving DecidableEq

/-- The seek pass at the top of each export frame iteration
(src/services/exportPipeline.ts, lines 380–393): every visible video
element whose asset was pre-loaded and which is active at `t` is seeked to
`trimIn + (t − startTime) * (playbackRate || 1)`.  `loaded` models the key
set of the pre-loaded `videos` map. -/
def seekTargets (els : List Element) (loaded : List String) (t : ℚ) : List (String × ℚ) :=
  els.filterMap fun el =>
    if el.etype = ElementType.video ∧ el.visible = true ∧ el.id ∈ loaded ∧ isInTime el t = true
    then some (el.id, el.trimIn + (t - el.startTime) * jsOr el.playbackRate 1)
    else Option.none

/-- `Math.ceil(duration * settings.fps)` (src/services/exportPipeline.ts,
line 341), clamped to `0` for the loop bound as a JavaScript `for` loop
would behave on a non-positive count. -/
def totalFramesFor (duration : ℚ) (fps : ℕ) : ℕ := (⌈duration * (fps : ℚ)⌉ : ℤ).toNat

/-- The frame loop of `exportProject` (src/services/exportPipeline.ts, lines
374–409) without cancellation: starting at `frame`, produce `n` frames, each
at `currentTime = frame / fps`, seeking first and then capturing. -/
def renderLoop (els : List Element) (loaded : List String) (fps : ℕ) : ℕ → ℕ → List ExportFrame
  | _frame, 0 => []
  | frame, Nat.succ n =>
    ⟨(frame : ℚ) / (fps : ℚ), seekTargets els loaded ((frame : ℚ) / (fps : ℚ))⟩ ::
      renderLoop els loaded fps (frame + 1) n

/-- All frames captured by an uncancelled export run. -/
def exportRenderedFrames (els : List Element) (loaded : List String) (duration : ℚ) (fps : ℕ) : List ExportFrame :=
  renderLoop els loaded fps 0 (totalFramesFor duration fps)

/-- Terminal states of an export run. -/
inductive ExportOutcome
  | success | cancelled | encoderFailed
deriving DecidableEq

/-- The render phase of `exportProject` (src/services/exportPipeline.ts,
lines 374–409): `abortSignal.aborted` is modelled as a predicate on
checkpoints, checked at the top of each frame iteration (checkpoints `0 ≤ f <
nFrames`).  Rendered frames live only in the in-memory `frameData` array, so
this phase writes no files; it only succeeds or is cancelled. -/
def renderPhaseOk (aborted : ℕ → Bool) : ℕ → ℕ → Bool
  | _f, 0 => true
  | f, Nat.succ n => if aborted f then false else renderPhaseOk aborted (f + 1) n

/-- The frame-write phase of `exportProject` (src/services/exportPipeline.ts,
lines 421–435): before writing frame `i` the abort flag is checked
(checkpoint `nFrames + i`); on abort the function throws, leaving the
already-written files; otherwise `frame_i.rgba` is written. -/
def writePhase (aborted : ℕ → Bool) (nFrames : ℕ) : ℕ → ℕ → List ℕ → Bool × List ℕ
  | _i, 0, acc => (true, acc)
  | i, Nat.succ r, acc =>
    if aborted (nFrames + i) then (false, acc)
    else writePhase aborted nFrames (i + 1) r (acc ++ [i])

/-- File-state model of `exportProject` (src/services/exportPipeline.ts,
lines 334–501): the result is the terminal outcome together with the frame
files left in the FFmpeg virtual filesystem.  The deletion loop (lines
481–490) runs only on the success path, after the encoder ran and the output
was read; a throw from a cancellation check or a failed `ffmpeg.exec` skips
it — there is no try/finally around the pipeline. -/
def exportRun (aborted : ℕ → Bool) (nFrames : ℕ) (encoderOk : Bool) : ExportOutcome × List ℕ :=
  if renderPhaseOk aborted 0 nFrames = false then (ExportOutcome.cancelled, [])
  else
    match writePhase aborted nFrames 0 nFrames [] with
    | (false, written) => (ExportOutcome.cancelled, written)
    | (true, written) =>
      if encoderOk then (ExportOutcome.success, [])
      else (ExportOutcome.encoderFailed, written)

/-- Type tag of a speech/silence region (src/services/vadAnalyzer.ts
`SpeechRegion`). -/
inductive RegionType
  | speech | silence
deriving DecidableEq

/-- A speech/silence region; the source fields `end` and `type` are named
`stop` and `rtype` here (`end` is a Lean keyword). -/
structure SpeechRegion where
  start : ℚ
  stop : ℚ
  rtype : RegionType
deriving DecidableEq

/-- JavaScript `String.prototype.padStart(2, '0')`: left-pad with zeros up
to length 2 (longer strings are returned unchanged). -/
def padStart2 (s : String) : String :=
  String.mk (List.replicate (2 - s.length) '0') ++ s

/-- `formatTime(seconds)` from the formatTime module bundled at the end of
src/src/utils/elementFactory.ts: minutes `Math.floor(seconds / 60)`, whole
seconds `Math.floor(seconds % 60)`, centiseconds
`Math.floor((seconds % 1) * 100)`, each rendered zero-padded to two digits
as `MM:SS.cc`. -/
def formatTime (seconds : ℚ) : String :=
  let m : ℤ := ⌊seconds / 60⌋
  let s : ℤ := ⌊jsMod seconds 60⌋
  let ms : ℤ := ⌊jsMod seconds 1 * 100⌋
  padStart2 (toString m) ++ ":" ++ padStart2 (toString s) ++ "." ++ padStart2 (toString ms)

/-- The region loop of `handleApply`
(src/components/autocut/AutoCutPanel.tsx, lines 82–97): one new element per
region, cloned from the source element with a fresh id, a bracketed name
suffix, back-to-back `startTime` accumulated in `timeOffset`, the region's
duration, and `trimIn`/`trimOut` derived from the region bounds offset by
the source's `trimIn || 0`. -/
def autoCutClips (freshIds : ℕ → String) (origEl : Element) : List SpeechRegion → ℚ → ℕ → List Element
  | [], _timeOffset, _i => []
  | r :: rs, timeOffset, i =>
    { origEl with
        id := freshIds i
        name := origEl.name ++ " [" ++ formatTime r.start ++ "]"
        startTime := timeOffset
        duration := r.stop - r.start
        trimIn := jsOr origEl.trimIn 0 + r.start
        trimOut := jsOr origEl.trimIn 0 + r.stop } ::
      autoCutClips freshIds origEl rs (timeOffset + (r.stop - r.start)) (i + 1)

/-- `handleApply` from src/components/autocut/AutoCutPanel.tsx, lines 65–100:
keep only the speech regions; if none, do nothing; otherwise delete the
source element and append one clip per speech region, starting at the
source's `startTime`. -/
def handleApply (freshIds : ℕ → String) (els : List Element) (origEl : Element)
    (regions : List SpeechRegion) : List Element :=
  let speechRegions := regions.filter fun r => r.rtype = RegionType.speech
  if speechRegions.isEmpty then els
  else
    (els.filter fun e => !(e.id = origEl.id : Bool)) ++
      autoCutClips freshIds origEl speechRegions origEl.startTime 0

/-- A parsed timestamp group `(hh, mm, ss, mmm)`; the arithmetic
`parseInt(h)*3600 + parseInt(m)*60 + parseInt(s) + parseInt(ms)/1000` of the
source parsers is applied by `tsToSeconds`. -/
structure TimeStamp where
  h : ℕ
  m : ℕ
  s : ℕ
  ms : ℕ
deriving DecidableEq

/-- The timestamp arithmetic shared by `parseSRT` and `parseVTT`
(src/services/aiEngine.ts). -/
def tsToSeconds (ts : TimeStamp) : ℚ :=
  (ts.h : ℚ) * 3600 + (ts.m : ℚ) * 60 + (ts.s : ℚ) + (ts.ms : ℚ) / 1000

/-- Parse exactly `k` more digit characters, accumulating their value. -/
def pDigitsAux : ℕ → ℕ → List Char → Option (ℕ × List Char)
  | 0, acc, cs => some (acc, cs)
  | Nat.succ k, acc, c :: cs =>
    if c.isDigit then pDigitsAux k (acc * 10 + (c.toNat - 48)) cs else Option.none
  | Nat.succ _, _, [] => Option.none

/-- The regex atom `\d{k}`: exactly `k` digits, valued as a number. -/
def pDigits (k : ℕ) (cs : List Char) : Option (ℕ × List Char) := pDigitsAux k 0 cs

/-- A single literal character. -/
def pChar (ch : Char) : List Char → Option (List Char)
  | c :: cs => if c = ch then some cs else Option.none
  | [] => Option.none

/-- Whitespace as it can occur inside a subtitle timestamp line (the lines
are produced by splitting on newlines, so of JavaScript `\s` only blanks,
tabs and a trailing carriage return can appear). -/
def isSpaceChar (c : Char) : Bool :=
  c = ' ' || c = '\t' || c = '\r'

/-- The regex atom `\s*`. -/
def skipSpaces : List Char → List Char
  | c :: cs => if isSpaceChar c then skipSpaces cs else c :: cs
  | [] => []

/-- The regex fragment `\s*-->\s*` between the two timestamps. -/
def pArrow (cs : List Char) : Option (List Char) :=
  match skipSpaces cs with
  | '-' :: '-' :: '>' :: rest => some (skipSpaces rest)
  | _ => Option.none

/-- The SRT timestamp fragment
`(\d{2}):(\d{2}):(\d{2})[,.](\d{3})` of `parseSRT`
(src/services/aiEngine.ts, line 654): both the comma and the dot millisecond
separator are accepted. -/
def pTimeSRT (cs : List Char) : Option (TimeStamp × List Char) := do
  let (h, cs) ← pDigits 2 cs
  let cs ← pChar ':' cs
  let (m, cs) ← pDigits 2 cs
  let cs ← pChar ':' cs
  let (s, cs) ← pDigits 2 cs
  match cs with
  | c :: cs =>
    if c = ',' ∨ c = '.' then do
      let (ms, cs) ← pDigits 3 cs
      pure (⟨h, m, s, ms⟩, cs)
    else Option.none
  | [] => Option.none

/-- The VTT timestamp fragment `(?:(\d{2}):)?(\d{2}):(\d{2})[.](\d{3})` of
`parseVTT` (src/services/aiEngine.ts, line 708): the hour group is optional
(tried first, as the regex engine does) and an absent group parses as `0`;
only the dot millisecond separator is accepted. -/
def pTimeVTT (cs : List Char) : Option (TimeStamp × List Char) :=
  (do
    let (h, cs1) ← pDigits 2 cs
    let cs1 ← pChar ':' cs1
    let (m, cs1) ← pDigits 2 cs1
    let cs1 ← pChar ':' cs1
    let (s, cs1) ← pDigits 2 cs1
    let cs1 ← pChar '.' cs1
    let (ms, cs1) ← pDigits 3 cs1
    pure ((⟨h, m, s, ms⟩ : TimeStamp), cs1)).orElse
  fun _ => do
    let (m, cs1) ← pDigits 2 cs
    let cs1 ← pChar ':' cs1
    let (s, cs1) ← pDigits 2 cs1
    let cs1 ← pChar '.' cs1
    let (ms, cs1) ← pDigits 3 cs1
    pure (⟨0, m, s, ms⟩, cs1)

/-- A full `t1 --> t2` timestamp-pair match attempt at one position, SRT
variant; anything after the second timestamp is ignored, as the unanchored
regex does. -/
def tryPairSRT (cs : List Char) : Option (TimeStamp × TimeStamp) := do
  let (t1, cs) ← pTimeSRT cs
  let cs ← pArrow cs
  let (t2, _cs) ← pTimeSRT cs
  pure (t1, t2)

/-- A full `t1 --> t2` timestamp-pair match attempt at one position, VTT
variant. -/
def tryPairVTT (cs : List Char) : Option (TimeStamp × TimeStamp) := do
  let (t1, cs) ← pTimeVTT cs
  let cs ← pArrow cs
  let (t2, _cs) ← pTimeVTT cs
  pure (t1, t2)

/-- JavaScript `String.prototype.match` with an unanchored pattern: try the
pattern at each start position from the left and keep the first success. -/
def findMatch {α : Type} (p : List Char → Option α) : List Char → Option α
  | [] => p []
  | c :: rest =>
    match p (c :: rest) with
    | some a => some a
    | Option.none => findMatch p rest

/-- Substring test for `line.includes('-->')`. -/
def hasArrowAux : List Char → Bool
  | '-' :: '-' :: '>' :: _ => true
  | _ :: rest => hasArrowAux rest
  | [] => false

/-- `line.includes('-->')` from `parseVTT` (src/services/aiEngine.ts). -/
def hasArrow (s : String) : Bool := hasArrowAux s.toList

/-- Split a character list at the first `>`, returning the characters before
it and the remainder after it. -/
def splitAtGt : List Char → Option (List Char × List Char)
  | [] => Option.none
  | c :: cs =>
    if c = '>' then some ([], cs)
    else
      match splitAtGt cs with
      | some (pre, post) => some (c :: pre, post)
      | Option.none => Option.none

/-- The global replace `.replace(/<[^>]+>/g, '')` stripping inline markup
from cue text: at a `<`, a tag match needs at least one non-`>` character
before the next `>`; an unmatched or empty `<>` is kept and scanning resumes
at the next character.  The fuel argument is the input length. -/
def stripTagsAux : ℕ → List Char → List Char
  | 0, _ => []
  | Nat.succ _f, [] => []
  | Nat.succ f, c :: cs =>
    if c = '<' then
      match splitAtGt cs with
      | some (between, after) =>
        if between.isEmpty then c :: stripTagsAux f cs else stripTagsAux f after
      | Option.none => c :: stripTagsAux f cs
    else c :: stripTagsAux f cs

/-- `.replace(/<[^>]+>/g, '')` on a string. -/
def stripTags (s : String) : String := String.mk (stripTagsAux s.length s.toList)

/-- A parsed cue (src/types/element.ts `SubtitleCue`); the generated
random `id` field is not modelled. -/
structure SubCue where
  startTime : ℚ
  endTime : ℚ
  text : String
deriving DecidableEq

/-- `lines.slice(k).join('\n')`. -/
def joinLinesNL (ls : List String) : String := String.intercalate "\n" ls

/-- The per-block body of `parseSRT` (src/services/aiEngine.ts, lines
645–677), applied to the lines of one blank-line-separated block: a block
with fewer than 3 lines is dropped; the timestamps are matched on `lines[1]`
unconditionally (line 1 is assumed to be the index line); the cue text is
lines 2 onward, joined and markup-stripped. -/
def parseSRTBlock (lines : List String) : Option SubCue :=
  if lines.length < 3 then Option.none
  else
    match lines.get? 1 with
    | Option.none => Option.none
    | some timeLine =>
      match findMatch tryPairSRT timeLine.toList with
      | Option.none => Option.none
      | some (t1, t2) =>
        some ⟨tsToSeconds t1, tsToSeconds t2, stripTags (joinLinesNL (lines.drop 2))⟩

/-- The `for` loop of `parseVTT` locating the timestamp line: the index of
the first line containing `-->`, if any. -/
def findTimeLineIdxAux : ℕ → List String → Option ℕ
  | _i, [] => Option.none
  | i, l :: ls => if hasArrow l then some i else findTimeLineIdxAux (i + 1) ls

/-- `let timeLineIdx = 0; for (...) if (lines[i].includes('-->')) { ... break }`
from `parseVTT` (src/services/aiEngine.ts, lines 698–704): defaults to `0`
when no line contains `-->`. -/
def findTimeLineIdx (lines : List String) : ℕ := (findTimeLineIdxAux 0 lines).getD 0

/-- The per-block body of `parseVTT` (src/services/aiEngine.ts, lines
690–732): the timestamp line is the first line containing `-->` (defaulting
to index 0), so an optional cue id line before it is skipped; the cue text
is everything after the timestamp line, joined and markup-stripped. -/
def parseVTTBlock (lines : List String) : Option SubCue :=
  let timeLineIdx := findTimeLineIdx lines
  match lines.get? timeLineIdx with
  | Option.none => Option.none
  | some timeLine =>
    if !hasArrow timeLine then Option.none
    else
      match findMatch tryPairVTT timeLine.toList with
      | Option.none => Option.none
      | some (t1, t2) =>
        some ⟨tsToSeconds t1, tsToSeconds t2, stripTags (joinLinesNL (lines.drop (timeLineIdx + 1)))⟩

/-- A fully populated sample element used by concrete counterexamples; the
field values follow the defaults of src/utils/elementFactory.ts. -/
def sampleEl : Element :=
  { id := "a", etype := ElementType.video, name := "clip"
    x := 160, y := 100, width := 1920, height := 1080
    rotationDeg := 0, opacity := 1, visible := true, locked := false
    startTime := 0, duration := 10
    animation := AnimationType.none, animationExit := AnimationType.none
    animDuration := (3/5 : ℚ), animExitDuration := (3/5 : ℚ), easing := EasingType.easeOut
    filter := "none", blendMode := "normal", trackId := "", content := ""
    trimIn := 0, trimOut := 10, playbackRate := 1 }

/-- An element with an entry fade and the timing of the spec's own worked
example (`startTime = 2`, `duration = 4`, entry animation duration `1`). -/
def elFade : Element :=
  { sampleEl with
    animation := AnimationType.fadeIn, easing := EasingType.linear
    animDuration := 1, startTime := 2, duration := 4 }

/-- An element occupying the window `[2, 6)`, as in the spec's `time = 1.9`
example. -/
def elWin : Element := { sampleEl with startTime := 2, duration := 4 }

/-- A second element whose end edge at `5/2` is a snap target. -/
def elB : Element := { sampleEl with id := "b", startTime := 1, duration := (3/2 : ℚ) }

/-- A snapping context: snapping on, 10 px/s zoom (threshold `8/10`),
playhead at `5`, one other element. -/
def ctx0 : SnapCtx :=
  { snapEnabled := true, timelineZoom := 10, currentTime := 5, elements := [elB] }

/-- A video element with a non-zero source trim, starting at `1`. -/
def elTrim : Element := { sampleEl with startTime := 1, duration := 2, trimIn := (1/2 : ℚ) }

/-- The keep-regions of the spec's worked example: `[(1,3), (6,9)]`. -/
def regionsC : List SpeechRegion :=
  [⟨1, 3, RegionType.speech⟩, ⟨6, 9, RegionType.speech⟩]

/-- A deterministic fresh-id supply for concrete runs. -/
def freshIdsC : ℕ → String := fun i => "n" ++ toString i

/-- An SRT cue block without the leading index line (timestamps on the first
line, two text lines). -/
def srtNoIndexBlock : List String :=
  ["00:00:01,000 --> 00:00:02,500", "Hello <i>world</i>", "second"]

/-- The same SRT cue with the customary leading index line. -/
def srtWithIndexBlock : List String :=
  ["7", "00:00:01,000 --> 00:00:02,500", "Hello <i>world</i>"]

/-- A VTT cue block without the optional cue id line. -/
def vttNoIdBlock : List String :=
  ["00:00:01.000 --> 00:00:02.500", "Hello <i>world</i>"]

/-- A patch whose explicit timing values already satisfy the timing
invariant floor. -/
def patchRespectsTiming (p : Patch) : Prop :=
  (∀ d ∈ p.duration, (1/10 : ℚ) ≤ d) ∧ ∀ s ∈ p.startTime, (0 : ℚ) ≤ s

lemma updateElement_timing_step (els : List Element) (id : String) (p : Patch)
    (h : timingInvariant els) (hp : patchRespectsTiming p) :
    timingInvariant (updateElement els id p) := by
  intro e he
  rw [updateElement, List.mem_map] at he
  obtain ⟨e0, h0, heq⟩ := he
  by_cases hid : e0.id = id
  · rw [if_pos hid] at heq
    subst heq
    constructor
    · rcases hd : p.duration with _ | d
      · simpa [applyPatch, hd] using (h e0 h0).1
      · simpa [applyPatch, hd] using hp.1 d (by rw [hd]; exact Option.mem_some_self d)
    · rcases hs : p.startTime with _ | s
      · simpa [applyPatch, hs] using (h e0 h0).2
      · simpa [applyPatch, hs] using hp.2 s (by rw [hs]; exact Option.mem_some_self s)
  · rw [if_neg hid] at heq
    subst heq
    exact h e0 h0

lemma applyUpdates_cons (els : List Element) (u : String × Patch) (us : List (String × Patch)) :
    applyUpdates els (u :: us) = applyUpdates (updateElement els u.1 u.2) us := by
  simp [applyUpdates]

/-- C1, counterexample: `updateElement` stores merged values unchecked.  The
single-element list satisfies the timing invariants, yet one `updateElement`
call with a `duration` patch of `0.01` leaves an element with
`duration < 0.1` in the store. -/
theorem updateElement_stores_patch_unchecked :
    timingInvariant [sampleEl]
    ∧ ¬ timingInvariant (applyUpdates [sampleEl] [("a", { duration := some (1/100 : ℚ) })]) := by
  constructor
  · intro e he
    rw [List.mem_singleton] at he
    subst he
    exact ⟨by norm_num [sampleEl], by norm_num [sampleEl]⟩
  · intro h
    have hres : applyUpdates [sampleEl] [("a", { duration := some (1/100 : ℚ) })] =
        [{ sampleEl with duration := (1/100 : ℚ) }] := by
      norm_num [applyUpdates, updateElement, applyPatch, sampleEl]
    rw [hres] at h
    have h2 := h _ (List.mem_singleton.mpr rfl)
    norm_num [sampleEl] at h2

/-- C1, amended: `updateElement` does not re-validate after merging; the
timing invariants survive a sequence of `updateElement` calls exactly when
each patch's own explicit `duration`/`startTime` values already respect the
floors (`duration ≥ 0.1`, `startTime ≥ 0`). -/
theorem updateElement_preserves_timing_of_safe_patches
    (els : List Element) (us : List (String × Patch))
    (h : timingInvariant els) (hus : ∀ u ∈ us, patchRespectsTiming u.2) :
    timingInvariant (applyUpdates els us) := by
  induction us generalizing els with
  | nil => simpa [applyUpdates] using h
  | cons u us ih =>
    rw [applyUpdates_cons]
    exact ih _ (updateElement_timing_step _ _ _ h (hus u (List.mem_cons_self u us)))
      fun v hv => hus v (List.mem_cons_of_mem u hv)

/-- C1, witness for the amended theorem at a concrete safe patch. -/
theorem updateElement_preserves_timing_of_safe_patches_witness :
    timingInvariant
      (applyUpdates [sampleEl] [("a", { duration := some (1/5 : ℚ), startTime := some 3 })]) := by
  apply updateElement_preserves_timing_of_safe_patches
  · intro e he
    rw [List.mem_singleton] at he
    subst he
    exact ⟨by norm_num [sampleEl], by norm_num [sampleEl]⟩
  · intro u hu
    rw [List.mem_singleton] at hu
    subst hu
    constructor
    · intro d hd
      rw [Option.mem_def, Option.some_inj] at hd
      subst hd
      norm_num
    · intro s hs
      rw [Option.mem_def, Option.some_inj] at hs
      subst hs
      norm_num

/-- C2, counterexample: the preview and export paths are separate
implementations and disagree.  For the element of the spec's own example
(entry fade of duration 1, `startTime = 2`) at `t = 2.5`, the preview path
draws with animated opacity `0.5` while the export path draws with the base
opacity `1`. -/
theorem preview_export_opacity_differ :
    previewRenderElement true elFade (5/2 : ℚ) ≠ exportRenderElement elFade (5/2 : ℚ) := by
  have h1 : previewRenderElement true elFade (5/2 : ℚ) =
      some ⟨160, 100, 1920, 1080, 0, (1/2 : ℚ)⟩ := by
    norm_num [previewRenderElement, previewAnimOpacity, getAnimTransform, applyEasing,
      clamp, isInTime, elFade, sampleEl]
    simp
  have h2 : exportRenderElement elFade (5/2 : ℚ) =
      some ⟨160, 100, 1920, 1080, 0, (1 : ℚ)⟩ := by
    norm_num [exportRenderElement, isInTime, elFade, sampleEl]
  rw [h1, h2]
  intro h
  rw [Option.some_inj, RenderProps.mk.injEq] at h
  norm_num at h

/-- C2, amended: the two rendering paths agree on placement and opacity only
for elements with no entry and no exit animation, and only while the preview
is in the playing state; the export path never applies animation deltas. -/
theorem preview_eq_export_without_animation (isPlaying : Bool) (el : Element) (t : ℚ)
    (hA : el.animation = AnimationType.none) (hX : el.animationExit = AnimationType.none)
    (hp : isPlaying = true) :
    previewRenderElement isPlaying el t = exportRenderElement el t := by
  subst hp
  have hop : previewAnimOpacity el t = Option.none := by
    rw [previewAnimOpacity]
    simp [hA, hX]
  simp only [previewRenderElement, exportRenderElement, hop, Option.getD_none, Bool.and_true]

/-- C2, witness for the amended theorem on an animation-free element. -/
theorem preview_eq_export_without_animation_witness :
    previewRenderElement true sampleEl 5 = exportRenderElement sampleEl 5 :=
  preview_eq_export_without_animation true sampleEl 5 rfl rfl rfl

/-- C3, counterexample: the export path skips an element outside its timing
window, but the preview path draws it whenever playback is paused — the
spec's `startTime = 2`, `duration = 4` element at `t = 1.9` is absent from
the export frame yet present in the paused preview. -/
theorem preview_draws_outside_window_when_paused :
    exportRenderElement elWin (19/10 : ℚ) = Option.none
    ∧ previewRenderElement false elWin (19/10 : ℚ) ≠ Option.none := by
  constructor
  · norm_num [exportRenderElement, isInTime, elWin, sampleEl]
  · norm_num [previewRenderElement, previewAnimOpacity, isInTime, elWin, sampleEl]
    simp

/-- C3, amended: the export path draws nothing exactly when the element is
invisible or the time is outside `[startTime, startTime + duration)`; the
preview path additionally requires `isPlaying` for the window test, so a
paused preview still draws out-of-window elements. -/
theorem render_skip_characterization (p : Bool) (el : Element) (t : ℚ) :
    (exportRenderElement el t = Option.none ↔ (el.visible = false ∨ isInTime el t = false))
    ∧ (previewRenderElement p el t = Option.none ↔
        (el.visible = false ∨ (isInTime el t = false ∧ p = true))) := by
  constructor
  · rw [exportRenderElement]
    cases hv : el.visible <;> cases hi : isInTime el t <;> simp
  · rw [previewRenderElement]
    cases hv : el.visible <;> cases hi : isInTime el t <;> cases p <;> simp

lemma snapFold_nil (t : ℚ) (b : ℚ × ℚ) : snapFold t [] b = b := rfl

lemma snapFold_cons (t c : ℚ) (l : List ℚ) (b : ℚ × ℚ) :
    snapFold t (c :: l) b = snapFold t l (snapStep t b c) := by
  simp [snapFold]

lemma snapFold_append (t : ℚ) (l1 l2 : List ℚ) (b : ℚ × ℚ) :
    snapFold t (l1 ++ l2) b = snapFold t l2 (snapFold t l1 b) := by
  simp [snapFold, List.foldl_append]

lemma snapEdgeStep_eq_fold (t : ℚ) (ignoreId : Option String) :
    ∀ (els : List Element) (b : ℚ × ℚ),
      els.foldl (snapEdgeStep t ignoreId) b =
        snapFold t
          ((els.filter fun el => !(ignoreId = some el.id : Bool)).flatMap
            fun el => [el.startTime, el.startTime + el.duration]) b := by
  intro els
  induction els with
  | nil => intro b; rfl
  | cons el els ih =>
    intro b
    by_cases h : ignoreId = some el.id
    · have hd : (!decide (ignoreId = some el.id)) = false := by simp [h]
      rw [List.foldl_cons, List.filter_cons, hd]
      simp only [Bool.false_eq_true, if_false]
      rw [snapEdgeStep, if_pos h, ih]
    · have hd : (!decide (ignoreId = some el.id)) = true := by simp [h]
      rw [List.foldl_cons, List.filter_cons, hd]
      simp only [if_pos]
      rw [List.flatMap_cons, snapFold_append, ih]
      have hstep : snapEdgeStep t ignoreId b el =
          snapFold t [el.startTime, el.startTime + el.duration] b := by
        rw [snapEdgeStep, if_neg h]
        rfl
      rw [hstep]

lemma snapTime_eq_snapFold (ctx : SnapCtx) (t : ℚ) (ignoreId : Option String)
    (h : ctx.snapEnabled = true) :
    snapTime ctx t ignoreId =
      (snapFold t (snapCandidates ctx t ignoreId) (t, pxToTime ctx.timelineZoom 8)).1 := by
  rw [snapTime, snapCandidates, h]
  simp only [Bool.not_true, Bool.false_eq_true, if_false]
  rw [snapEdgeStep_eq_fold]
  rw [show (ctx.currentTime ::
        ((ctx.elements.filter fun el => !(ignoreId = some el.id : Bool)).flatMap
          fun el => [el.startTime, el.startTime + el.duration]) ++ [jsRound t]) =
      ctx.currentTime ::
        (((ctx.elements.filter fun el => !(ignoreId = some el.id : Bool)).flatMap
          fun el => [el.startTime, el.startTime + el.duration]) ++ [jsRound t]) from rfl]
  rw [snapFold_cons, snapFold_append]
  set b2 := snapFold t
      ((ctx.elements.filter fun el => !(ignoreId = some el.id : Bool)).flatMap
        fun el => [el.startTime, el.startTime + el.duration])
      (snapStep t (t, pxToTime ctx.timelineZoom 8) ctx.currentTime) with hb2
  show (if jsAbs (t - jsRound t) < b2.2 then jsRound t else b2.1) =
    (snapFold t [jsRound t] b2).1
  rw [snapFold_cons, snapFold_nil, snapStep]
  by_cases hlt : jsAbs (t - jsRound t) < b2.2
  · rw [if_pos hlt, if_pos hlt]
  · rw [if_neg hlt, if_neg hlt]

lemma snapFold_invariant (t : ℚ) :
    ∀ (l : List ℚ) (b d : ℚ),
      (snapFold t l (b, d) = (b, d) ∧ ∀ c ∈ l, d ≤ jsAbs (t - c))
      ∨ (∃ pre post, l = pre ++ (snapFold t l (b, d)).1 :: post
          ∧ (snapFold t l (b, d)).2 = jsAbs (t - (snapFold t l (b, d)).1)
          ∧ (snapFold t l (b, d)).2 < d
          ∧ (∀ c ∈ pre, (snapFold t l (b, d)).2 < jsAbs (t - c))
          ∧ ∀ c ∈ post, (snapFold t l (b, d)).2 ≤ jsAbs (t - c)) := by
  intro l
  induction l with
  | nil =>
    intro b d
    left
    exact ⟨rfl, by simp⟩
  | cons c l ih =>
    intro b d
    rw [snapFold_cons]
    by_cases h : jsAbs (t - c) < d
    · rw [show snapStep t (b, d) c = (c, jsAbs (t - c)) from by rw [snapStep, if_pos h]]
      rcases ih c (jsAbs (t - c)) with ⟨heq, hall⟩ | ⟨pre, post, hsplit, hdist, hlt, hpre, hpost⟩
      · right
        refine ⟨[], l, ?_, ?_, ?_, ?_, ?_⟩
        · simp [heq]
        · simp [heq]
        · rw [heq]; exact h
        · intro c2 hc2; cases hc2
        · intro c2 hc2; rw [heq]; exact hall c2 hc2
      · right
        refine ⟨c :: pre, post, ?_, hdist, lt_trans hlt h, ?_, hpost⟩
        · rw [List.cons_append, ← hsplit]
        · intro c2 hc2
          rcases List.mem_cons.mp hc2 with hc2 | hc2
          · subst hc2; exact hlt
          · exact hpre c2 hc2
    · rw [show snapStep t (b, d) c = (b, d) from by rw [snapStep, if_neg h]]
      rcases ih b d with ⟨heq, hall⟩ | ⟨pre, post, hsplit, hdist, hlt, hpre, hpost⟩
      · left
        refine ⟨heq, ?_⟩
        intro c2 hc2
        rcases List.mem_cons.mp hc2 with hc2 | hc2
        · subst hc2; exact not_lt.mp h
        · exact hall c2 hc2
      · right
        refine ⟨c :: pre, post, ?_, hdist, hlt, ?_, hpost⟩
        · rw [List.cons_append, ← hsplit]
        · intro c2 hc2
          rcases List.mem_cons.mp hc2 with hc2 | hc2
          · subst hc2; exact lt_of_lt_of_le hlt (not_lt.mp h)
          · exact hpre c2 hc2

/-- C4: with snapping enabled, `snapTime` returns its input unchanged when
no candidate (playhead, other elements' start/end edges, nearest
whole-second mark) is strictly within the pixel-derived threshold
`pxToTime(8)`; otherwise it returns a candidate at minimal distance, and
among equally-close candidates the one scanned first — playhead before clip
edges before the ruler mark. -/
theorem snapTime_first_closest_candidate (ctx : SnapCtx) (t : ℚ) (ignoreId : Option String)
    (hsnap : ctx.snapEnabled = true) :
    ((∀ c ∈ snapCandidates ctx t ignoreId, pxToTime ctx.timelineZoom 8 ≤ jsAbs (t - c)) →
        snapTime ctx t ignoreId = t)
    ∧ ((∃ c ∈ snapCandidates ctx t ignoreId, jsAbs (t - c) < pxToTime ctx.timelineZoom 8) →
        ∃ pre post,
          snapCandidates ctx t ignoreId = pre ++ snapTime ctx t ignoreId :: post
          ∧ jsAbs (t - snapTime ctx t ignoreId) < pxToTime ctx.timelineZoom 8
          ∧ (∀ c ∈ pre, jsAbs (t - snapTime ctx t ignoreId) < jsAbs (t - c))
          ∧ ∀ c ∈ post, jsAbs (t - snapTime ctx t ignoreId) ≤ jsAbs (t - c)) := by
  rw [snapTime_eq_snapFold ctx t ignoreId hsnap]
  set r := snapFold t (snapCandidates ctx t ignoreId) (t, pxToTime ctx.timelineZoom 8) with hr
  rcases snapFold_invariant t (snapCandidates ctx t ignoreId) t (pxToTime ctx.timelineZoom 8)
    with ⟨heq, hall⟩ | ⟨pre, post, hsplit, hdist, hlt, hpre, hpost⟩
  · constructor
    · intro _
      rw [← hr] at heq
      simp [heq]
    · intro ⟨c, hc, hclt⟩
      exact absurd hclt (not_lt.mpr (hall c hc))
  · rw [← hr] at hsplit hdist hlt hpre hpost
    constructor
    · intro hall
      have hmem : r.1 ∈ snapCandidates ctx t ignoreId := by
        rw [hsplit]
        exact List.mem_append_right _ (List.mem_cons_self _ _)
      have := hall _ hmem
      rw [← hdist] at this
      exact absurd hlt (not_lt.mpr this)
    · intro _
      exact ⟨pre, post, hsplit, hdist ▸ hlt, fun c hc => hdist ▸ hpre c hc,
        fun c hc => hdist ▸ hpost c hc⟩

/-- C4, witness: in `ctx0` (threshold `0.8`, playhead `5`, another element
spanning `[1, 2.5]`) the candidate `2.3` snaps to the end edge `2.5`, the
unique closest candidate. -/
theorem snapTime_first_closest_candidate_witness :
    ∃ pre post,
      snapCandidates ctx0 (23/10 : ℚ) (some "a") =
        pre ++ snapTime ctx0 (23/10 : ℚ) (some "a") :: post
      ∧ jsAbs ((23/10 : ℚ) - snapTime ctx0 (23/10 : ℚ) (some "a")) < pxToTime ctx0.timelineZoom 8
      ∧ (∀ c ∈ pre, jsAbs ((23/10 : ℚ) - snapTime ctx0 (23/10 : ℚ) (some "a")) < jsAbs ((23/10 : ℚ) - c))
      ∧ ∀ c ∈ post, jsAbs ((23/10 : ℚ) - snapTime ctx0 (23/10 : ℚ) (some "a")) ≤ jsAbs ((23/10 : ℚ) - c) :=
  (snapTime_first_closest_candidate ctx0 (23/10 : ℚ) (some "a") rfl).2
    ⟨(5/2 : ℚ),
      by
        have hc : snapCandidates ctx0 (23/10 : ℚ) (some "a") =
            [5, 1, (5/2 : ℚ), jsRound (23/10 : ℚ)] := by
          simp [snapCandidates, ctx0, elB, sampleEl]
          norm_num
        rw [hc]
        norm_num [List.mem_cons],
      by norm_num [jsAbs, pxToTime, ctx0]⟩

lemma applyPatch_id (e : Element) (p : Patch) : (applyPatch e p).id = e.id := rfl

lemma mem_updateElement (els : List Element) (id : String) (p : Patch) (e : Element)
    (he : e ∈ updateElement els id p) :
    (∃ e0 ∈ els, ¬ e0.id = id ∧ e = e0) ∨ ∃ e0 ∈ els, e0.id = id ∧ e = applyPatch e0 p := by
  rw [updateElement, List.mem_map] at he
  obtain ⟨e0, h0, heq⟩ := he
  by_cases hid : e0.id = id
  · right
    exact ⟨e0, h0, hid, by rw [← heq, if_pos hid]⟩
  · left
    exact ⟨e0, h0, hid, by rw [← heq, if_neg hid]⟩

lemma clamp_le_hi (v lo hi : ℚ) (h : lo ≤ hi) : clamp v lo hi ≤ hi :=
  max_le h (min_le_right v hi)

lemma lo_le_clamp (v lo hi : ℚ) : lo ≤ clamp v lo hi := le_max_left lo (min v hi)

/-- C5, counterexample: dragging the left trim handle of a video clip at
`startTime = 1`, `duration = 2`, `trimIn = 0.5` left by one second (snapping
off) moves the start to `0`, but the stored `trimIn` is `0`, not the
claim's `refTrimIn + (newStart − refStart) = −0.5`: the source floors it at
zero with `Math.max(0, ...)`. -/
theorem trimLeft_trimIn_clamped_at_zero :
    (trimLeftDrag false 10 0 "a" ⟨1, 2, (1/2 : ℚ)⟩ (-1) [elTrim]).map Element.startTime = [0]
    ∧ (trimLeftDrag false 10 0 "a" ⟨1, 2, (1/2 : ℚ)⟩ (-1) [elTrim]).map Element.trimIn = [0]
    ∧ ((0 : ℚ) ≠ (1/2 : ℚ) + ((0 : ℚ) - 1)) := by
  refine ⟨?_, ?_, by norm_num⟩
  · norm_num [trimLeftDrag, elTrim, sampleEl, snapTime, clamp, updateElement, applyPatch,
      List.find?]
  · norm_num [trimLeftDrag, elTrim, sampleEl, snapTime, clamp, updateElement, applyPatch,
      List.find?]

/-- C5, amended: a trim-left drag sets the dragged element's `startTime` to
`clamp(snap(clamp(refStart + Δt, 0, refStart + refDuration − 0.1)), …)`
(clamp, snap, re-clamp), its `duration` to `refDuration − (newStart −
refStart)` so that the end edge is unchanged, and — for video/audio — its
`trimIn` to `max(0, refTrimIn + (newStart − refStart))`: the shift of the
claim, but floored at zero. -/
theorem trimLeft_spec (snapEnabled : Bool) (timelineZoom currentTime : ℚ) (dragId : String)
    (ref : DragStart) (deltaTime : ℚ) (els : List Element) (el : Element)
    (hfind : (els.find? fun e => e.id = dragId) = some el)
    (h0 : 0 ≤ ref.startTime) (h1 : (1/10 : ℚ) ≤ ref.duration) :
    ∀ e ∈ trimLeftDrag snapEnabled timelineZoom currentTime dragId ref deltaTime els,
      e.id = dragId →
        e.startTime = trimLeftNewStart snapEnabled timelineZoom currentTime dragId ref deltaTime els
        ∧ e.duration = ref.duration -
            (trimLeftNewStart snapEnabled timelineZoom currentTime dragId ref deltaTime els
              - ref.startTime)
        ∧ e.startTime + e.duration = ref.startTime + ref.duration
        ∧ ((el.etype = ElementType.video ∨ el.etype = ElementType.audio) →
            e.trimIn = max 0 (ref.trimIn +
              (trimLeftNewStart snapEnabled timelineZoom currentTime dragId ref deltaTime els
                - ref.startTime))) := by
  intro e he hid
  set newStart := trimLeftNewStart snapEnabled timelineZoom currentTime dragId ref deltaTime els
    with hns
  have hmaxle : (0 : ℚ) ≤ ref.startTime + ref.duration - (1/10 : ℚ) := by linarith
  have hle : newStart ≤ ref.startTime + ref.duration - (1/10 : ℚ) := by
    rw [hns, trimLeftNewStart]
    exact clamp_le_hi _ _ _ hmaxle
  have hdmax : max (1/10 : ℚ) (ref.duration - (newStart - ref.startTime)) =
      ref.duration - (newStart - ref.startTime) := by
    rw [max_eq_right]
    linarith
  rw [trimLeftDrag, hfind] at he
  simp only at he
  have hstart :
      ∀ e2 ∈ updateElement els dragId
          { startTime := some newStart
            duration := some (max (1/10 : ℚ) (ref.duration - (newStart - ref.startTime))) },
        e2.id = dragId →
          e2.startTime = newStart
          ∧ e2.duration = ref.duration - (newStart - ref.startTime) := by
    intro e2 he2 hid2
    rcases mem_updateElement _ _ _ _ he2 with ⟨e0, _, hne, heq⟩ | ⟨e0, _, _, heq⟩
    · rw [heq] at hid2
      exact absurd hid2 hne
    · rw [heq]
      exact ⟨rfl, by rw [show (applyPatch e0
          { startTime := some newStart
            duration := some (max (1/10 : ℚ) (ref.duration - (newStart - ref.startTime))) }).duration
          = max (1/10 : ℚ) (ref.duration - (newStart - ref.startTime)) from rfl, hdmax]⟩
  by_cases hm : el.etype = ElementType.video ∨ el.etype = ElementType.audio
  · rw [if_pos hm] at he
    rcases mem_updateElement _ _ _ _ he with ⟨e1, he1, hne, heq⟩ | ⟨e1, he1, _, heq⟩
    · rw [heq] at hid
      exact absurd hid hne
    · have he1id : e1.id = dragId := by
        rw [heq, applyPatch_id] at hid
        exact hid
      have h1s := hstart e1 he1 he1id
      have hstval : e.startTime = e1.startTime := by rw [heq]; rfl
      have hdval : e.duration = e1.duration := by rw [heq]; rfl
      have htval : e.trimIn = max 0 (ref.trimIn + (newStart - ref.startTime)) := by
        rw [heq]; rfl
      refine ⟨by rw [hstval, h1s.1], by rw [hdval, h1s.2], ?_, fun _ => htval⟩
      rw [hstval, hdval, h1s.1, h1s.2]
      ring
  · rw [if_neg hm] at he
    have h1s := hstart e he hid
    refine ⟨h1s.1, h1s.2, ?_, fun hmm => absurd hmm hm⟩
    rw [h1s.1, h1s.2]
    ring

/-- C5, witness: the amended theorem at the concrete drag of the
counterexample input, instantiated at the resulting element. -/
theorem trimLeft_spec_witness :
    ({ elTrim with startTime := 0, duration := 3, trimIn := 0 } : Element).startTime
        = trimLeftNewStart false 10 0 "a" ⟨1, 2, (1/2 : ℚ)⟩ (-1) [elTrim]
    ∧ ({ elTrim with startTime := 0, duration := 3, trimIn := 0 } : Element).duration
        = 2 - (trimLeftNewStart false 10 0 "a" ⟨1, 2, (1/2 : ℚ)⟩ (-1) [elTrim] - 1)
    ∧ ({ elTrim with startTime := 0, duration := 3, trimIn := 0 } : Element).startTime +
          ({ elTrim with startTime := 0, duration := 3, trimIn := 0 } : Element).duration = 1 + 2
    ∧ ({ elTrim with startTime := 0, duration := 3, trimIn := 0 } : Element).trimIn
        = max 0 ((1/2 : ℚ) +
            (trimLeftNewStart false 10 0 "a" ⟨1, 2, (1/2 : ℚ)⟩ (-1) [elTrim] - 1)) := by
  have hres : trimLeftDrag false 10 0 "a" ⟨1, 2, (1/2 : ℚ)⟩ (-1) [elTrim] =
      [{ elTrim with startTime := 0, duration := 3, trimIn := 0 }] := by
    norm_num [trimLeftDrag, snapTime, clamp, updateElement, applyPatch, elTrim, sampleEl,
      List.find?]
  have happ := trimLeft_spec false 10 0 "a" ⟨1, 2, (1/2 : ℚ)⟩ (-1) [elTrim] elTrim
    (by simp [List.find?, elTrim, sampleEl]) (by norm_num) (by norm_num)
    { elTrim with startTime := 0, duration := 3, trimIn := 0 }
    (by rw [hres]; exact List.mem_singleton.mpr rfl) rfl
  exact ⟨happ.1, happ.2.1, happ.2.2.1, happ.2.2.2 (Or.inl rfl)⟩

lemma jsOr_zero (x : ℚ) : jsOr x 0 = x := by
  by_cases h : x = 0 <;> simp [jsOr, h]

/-- C6: a blade click strictly inside an element's window truncates the
element's duration to `t − startTime` and appends a clone with
`startTime = t`, the remaining duration, `trimIn` advanced by the split
offset for video/audio, a fresh id, and every other modelled field copied
(only the display name gains a " (2)" suffix); a click at or outside the
window boundaries leaves the list unchanged; and the per-element body of
`splitAtPlayhead` computes exactly the same list. -/
theorem bladeClip_spec (freshId : String) (els : List Element) (el : Element) (t : ℚ) :
    ((el.startTime < t ∧ t < el.startTime + el.duration) →
      ∃ sh, bladeClip freshId els el t =
          updateElement els el.id { duration := some (t - el.startTime) } ++ [sh]
        ∧ sh.startTime = t
        ∧ sh.duration = el.duration - (t - el.startTime)
        ∧ ((el.etype = ElementType.video ∨ el.etype = ElementType.audio) →
            sh.trimIn = el.trimIn + (t - el.startTime))
        ∧ (¬ (el.etype = ElementType.video ∨ el.etype = ElementType.audio) →
            sh.trimIn = el.trimIn)
        ∧ sh.id = freshId
        ∧ sh.name = el.name ++ " (2)"
        ∧ sh.etype = el.etype ∧ sh.x = el.x ∧ sh.y = el.y
        ∧ sh.width = el.width ∧ sh.height = el.height
        ∧ sh.rotationDeg = el.rotationDeg ∧ sh.opacity = el.opacity
        ∧ sh.visible = el.visible ∧ sh.locked = el.locked
        ∧ sh.animation = el.animation ∧ sh.animationExit = el.animationExit
        ∧ sh.easing = el.easing ∧ sh.content = el.content
        ∧ sh.trimOut = el.trimOut ∧ sh.playbackRate = el.playbackRate)
    ∧ ((t ≤ el.startTime ∨ el.startTime + el.duration ≤ t) → bladeClip freshId els el t = els)
    ∧ splitAtPlayheadOne freshId t els el = bladeClip freshId els el t := by
  refine ⟨?_, ?_, ?_⟩
  · intro ⟨hl, hr⟩
    have hcond : ¬ (t ≤ el.startTime ∨ el.startTime + el.duration ≤ t) := by
      rw [not_or]
      exact ⟨not_le.mpr hl, not_le.mpr hr⟩
    rw [bladeClip, if_neg hcond]
    by_cases hm : el.etype = ElementType.video ∨ el.etype = ElementType.audio
    · refine ⟨_, rfl, ?_⟩
      simp [hm, jsOr_zero]
    · refine ⟨_, rfl, ?_⟩
      simp [hm]
  · intro hcond
    rw [bladeClip, if_pos hcond]
  · rfl

/-- C6, witness: splitting the 10-second sample clip at `t = 4`. -/
theorem bladeClip_spec_witness :
    ∃ sh, bladeClip "fresh" [sampleEl] sampleEl 4 =
        updateElement [sampleEl] sampleEl.id { duration := some (4 - sampleEl.startTime) } ++ [sh]
      ∧ sh.startTime = 4
      ∧ sh.duration = sampleEl.duration - (4 - sampleEl.startTime)
      ∧ ((sampleEl.etype = ElementType.video ∨ sampleEl.etype = ElementType.audio) →
          sh.trimIn = sampleEl.trimIn + (4 - sampleEl.startTime))
      ∧ (¬ (sampleEl.etype = ElementType.video ∨ sampleEl.etype = ElementType.audio) →
          sh.trimIn = sampleEl.trimIn)
      ∧ sh.id = "fresh"
      ∧ sh.name = sampleEl.name ++ " (2)"
      ∧ sh.etype = sampleEl.etype ∧ sh.x = sampleEl.x ∧ sh.y = sampleEl.y
      ∧ sh.width = sampleEl.width ∧ sh.height = sampleEl.height
      ∧ sh.rotationDeg = sampleEl.rotationDeg ∧ sh.opacity = sampleEl.opacity
      ∧ sh.visible = sampleEl.visible ∧ sh.locked = sampleEl.locked
      ∧ sh.animation = sampleEl.animation ∧ sh.animationExit = sampleEl.animationExit
      ∧ sh.easing = sampleEl.easing ∧ sh.content = sampleEl.content
      ∧ sh.trimOut = sampleEl.trimOut ∧ sh.playbackRate = sampleEl.playbackRate :=
  (bladeClip_spec "fresh" [sampleEl] sampleEl 4).1
    ⟨by norm_num [sampleEl], by norm_num [sampleEl]⟩

lemma renderLoop_length (els : List Element) (loaded : List String) (fps : ℕ) :
    ∀ (n f : ℕ), (renderLoop els loaded fps f n).length = n := by
  intro n
  induction n with
  | zero => intro f; rfl
  | succ n ih =>
    intro f
    rw [renderLoop, List.length_cons, ih]

lemma renderLoop_get? (els : List Element) (loaded : List String) (fps : ℕ) :
    ∀ (n f i : ℕ), i < n →
      (renderLoop els loaded fps f n).get? i =
        some ⟨((f + i : ℕ) : ℚ) / (fps : ℚ), seekTargets els loaded (((f + i : ℕ) : ℚ) / (fps : ℚ))⟩ := by
  intro n
  induction n with
  | zero =>
    intro f i h
    exact absurd h (Nat.not_lt_zero i)
  | succ n ih =>
    intro f i h
    match i with
    | 0 =>
      rw [renderLoop]
      simp
    | Nat.succ j =>
      rw [renderLoop, List.get?_cons_succ, ih (f + 1) j (Nat.lt_of_succ_lt_succ h)]
      rw [show f + 1 + j = f + (j + 1) from by omega]

lemma seekTargets_mem (els : List Element) (loaded : List String) (t : ℚ)
    (id : String) (sv : ℚ) :
    (id, sv) ∈ seekTargets els loaded t ↔
      ∃ el ∈ els, el.id = id ∧ el.etype = ElementType.video ∧ el.visible = true
        ∧ id ∈ loaded ∧ isInTime el t = true
        ∧ sv = el.trimIn + (t - el.startTime) * jsOr el.playbackRate 1 := by
  rw [seekTargets, List.mem_filterMap]
  constructor
  · rintro ⟨el, hel, hf⟩
    by_cases hc : el.etype = ElementType.video ∧ el.visible = true ∧ el.id ∈ loaded
        ∧ isInTime el t = true
    · rw [if_pos hc, Option.some_inj, Prod.mk.injEq] at hf
      exact ⟨el, hel, hf.1, hc.1, hc.2.1, hf.1 ▸ hc.2.2.1, hc.2.2.2, hf.2.symm⟩
    · rw [if_neg hc] at hf
      cases hf
  · rintro ⟨el, hel, hid, hv, hvis, hld, hit, hsv⟩
    refine ⟨el, hel, ?_⟩
    rw [if_pos ⟨hv, hvis, hid ▸ hld, hit⟩, hsv, hid]

/-- C7, counterexample: the export seek uses `el.playbackRate || 1`, so a
video element whose `playbackRate` is `0` is seeked to
`trimIn + (t − startTime) * 1`, not to the claim's
`trimIn + (t − startTime) * playbackRate`.  At `t = 1/2` the seek target is
`1/2` while the claim's formula gives `0`. -/
theorem export_seek_rate_zero_defaults_to_one :
    seekTargets [{ sampleEl with playbackRate := 0, duration := 1 }] ["a"] (1/2 : ℚ) =
      [("a", (1/2 : ℚ))]
    ∧ (1/2 : ℚ) ≠
        ({ sampleEl with playbackRate := 0, duration := 1 } : Element).trimIn +
          ((1/2 : ℚ) - ({ sampleEl with playbackRate := 0, duration := 1 } : Element).startTime) *
            ({ sampleEl with playbackRate := 0, duration := 1 } : Element).playbackRate := by
  constructor
  · norm_num [seekTargets, isInTime, jsOr, sampleEl, List.filterMap_cons]
  · norm_num [sampleEl]

/-- C7, amended: an export run over an `N`-second composition at `fps`
captures exactly `⌈N * fps⌉` frames; frame `i` is rendered at time
`i / fps`, and its awaited seeks are exactly the visible, pre-loaded video
elements active at that time, each seeked to
`trimIn + (time − startTime) * (playbackRate || 1)` — the claim's formula,
except that a `playbackRate` of `0` is replaced by `1`. -/
theorem export_frames_spec (els : List Element) (loaded : List String)
    (duration : ℚ) (fps : ℕ) :
    (exportRenderedFrames els loaded duration fps).length = (⌈duration * (fps : ℚ)⌉ : ℤ).toNat
    ∧ ∀ i, i < (⌈duration * (fps : ℚ)⌉ : ℤ).toNat →
        ((exportRenderedFrames els loaded duration fps).get? i =
            some ⟨(i : ℚ) / (fps : ℚ), seekTargets els loaded ((i : ℚ) / (fps : ℚ))⟩
          ∧ ∀ id sv, ((id, sv) ∈ seekTargets els loaded ((i : ℚ) / (fps : ℚ)) ↔
              ∃ el ∈ els, el.id = id ∧ el.etype = ElementType.video ∧ el.visible = true
                ∧ id ∈ loaded ∧ isInTime el ((i : ℚ) / (fps : ℚ)) = true
                ∧ sv = el.trimIn + ((i : ℚ) / (fps : ℚ) - el.startTime) * jsOr el.playbackRate 1)) := by
  constructor
  · rw [exportRenderedFrames, renderLoop_length, totalFramesFor]
  · intro i hi
    constructor
    · rw [exportRenderedFrames, renderLoop_get? els loaded fps (totalFramesFor duration fps) 0 i
        (by rw [totalFramesFor]; exact hi)]
      rw [show (0 : ℕ) + i = i from by omega]
    · intro id sv
      exact seekTargets_mem els loaded _ id sv

/-- C7, witness: an export of a 1.5-second composition at 2 fps: 3 frames,
frame 1 at time `1/2`, whose only seek is the sample video at source time
`1/2`. -/
theorem export_frames_spec_witness :
    ((exportRenderedFrames [sampleEl] ["a"] (3/2 : ℚ) 2).get? 1 =
        some ⟨((1 : ℕ) : ℚ) / ((2 : ℕ) : ℚ),
          seekTargets [sampleEl] ["a"] (((1 : ℕ) : ℚ) / ((2 : ℕ) : ℚ))⟩
      ∧ ∀ id sv, ((id, sv) ∈ seekTargets [sampleEl] ["a"] (((1 : ℕ) : ℚ) / ((2 : ℕ) : ℚ)) ↔
          ∃ el ∈ [sampleEl], el.id = id ∧ el.etype = ElementType.video ∧ el.visible = true
            ∧ id ∈ ["a"] ∧ isInTime el (((1 : ℕ) : ℚ) / ((2 : ℕ) : ℚ)) = true
            ∧ sv = el.trimIn + (((1 : ℕ) : ℚ) / ((2 : ℕ) : ℚ) - el.startTime) *
                jsOr el.playbackRate 1)) :=
  (export_frames_spec [sampleEl] ["a"] (3/2 : ℚ) 2).2 1
    (by norm_num)

lemma renderPhaseOk_of_none (aborted : ℕ → Bool) :
    ∀ (n f : ℕ), (∀ j, j < n → aborted (f + j) = false) → renderPhaseOk aborted f n = true := by
  intro n
  induction n with
  | zero => intro f _; rfl
  | succ n ih =>
    intro f h
    have h0 : aborted f = false := by
      have := h 0 (Nat.succ_pos n)
      rwa [Nat.add_zero] at this
    rw [renderPhaseOk, h0]
    simp only [Bool.false_eq_true, if_false]
    exact ih (f + 1) fun j hj => by
      have := h (j + 1) (Nat.succ_lt_succ hj)
      rwa [show f + (j + 1) = f + 1 + j from by omega] at this

lemma renderPhaseOk_false_of_abort (aborted : ℕ → Bool) :
    ∀ (n f k : ℕ), k < n → aborted (f + k) = true → renderPhaseOk aborted f n = false := by
  intro n
  induction n with
  | zero => intro f k hk _; exact absurd hk (Nat.not_lt_zero k)
  | succ n ih =>
    intro f k hk hab
    by_cases ha : aborted f = true
    · rw [renderPhaseOk, ha]
      simp
    · rw [renderPhaseOk, if_neg ha]
      match k with
      | 0 =>
        rw [Nat.add_zero] at hab
        exact absurd hab ha
      | Nat.succ j =>
        exact ih (f + 1) j (Nat.lt_of_succ_lt_succ hk)
          (by rwa [show f + 1 + j = f + (j + 1) from by omega])

lemma writePhase_complete (aborted : ℕ → Bool) (nFrames : ℕ) :
    ∀ (r i : ℕ) (acc : List ℕ), (∀ j, j < r → aborted (nFrames + (i + j)) = false) →
      writePhase aborted nFrames i r acc = (true, acc ++ List.range' i r) := by
  intro r
  induction r with
  | zero => intro i acc _; simp [writePhase]
  | succ r ih =>
    intro i acc h
    have h0 : aborted (nFrames + i) = false := by
      have := h 0 (Nat.succ_pos r)
      rwa [Nat.add_zero] at this
    rw [writePhase, h0]
    simp only [Bool.false_eq_true, if_false]
    rw [ih (i + 1) (acc ++ [i]) fun j hj => by
      have := h (j + 1) (Nat.succ_lt_succ hj)
      rwa [show i + (j + 1) = i + 1 + j from by omega] at this]
    rw [List.range'_succ, List.append_assoc, List.singleton_append]

lemma writePhase_abort (aborted : ℕ → Bool) (nFrames : ℕ) :
    ∀ (r i : ℕ) (acc : List ℕ) (k : ℕ), k < r →
      (∀ j, j < k → aborted (nFrames + (i + j)) = false) → aborted (nFrames + (i + k)) = true →
      writePhase aborted nFrames i r acc = (false, acc ++ List.range' i k) := by
  intro r
  induction r with
  | zero => intro i acc k hk _ _; exact absurd hk (Nat.not_lt_zero k)
  | succ r ih =>
    intro i acc k hk hnone hab
    match k with
    | 0 =>
      rw [Nat.add_zero] at hab
      rw [writePhase, hab]
      simp
    | Nat.succ j =>
      have h0 : aborted (nFrames + i) = false := by
        have := hnone 0 (Nat.succ_pos j)
        rwa [Nat.add_zero] at this
      rw [writePhase, h0]
      simp only [Bool.false_eq_true, if_false]
      rw [ih (i + 1) (acc ++ [i]) j (Nat.lt_of_succ_lt_succ hk)
        (fun j2 hj2 => by
          have := hnone (j2 + 1) (Nat.succ_lt_succ hj2)
          rwa [show i + (j2 + 1) = i + 1 + j2 from by omega] at this)
        (by rwa [show i + 1 + j = i + (j + 1) from by omega])]
      rw [List.range'_succ, List.append_assoc, List.singleton_append]

/-- C8, counterexample: cancelling an export of 2 frames at the write
checkpoint before frame 1 (the fourth abort check overall) terminates the
run as cancelled but leaves `frame_000000.rgba` behind — the cleanup loop
runs only on the success path. -/
theorem export_cancel_leaves_written_frames :
    exportRun (fun j => decide (j = 3)) 2 true = (ExportOutcome.cancelled, [0])
    ∧ ([0] : List ℕ) ≠ [] := by
  exact ⟨rfl, by simp⟩

/-- C8, amended: cancellation observed during the render phase leaves no
intermediate frame files (frames are only buffered in memory there), but
cancellation during the frame-write phase before frame `k` leaves the `k`
already-written frame files, and an encoder failure leaves all `n` frame
files; the FFmpeg virtual filesystem is emptied only when encoding succeeds
and the output has been read. -/
theorem exportRun_cleanup_spec (aborted : ℕ → Bool) (nFrames : ℕ) (encoderOk : Bool) :
    ((∃ k, k < nFrames ∧ aborted k = true) →
        exportRun aborted nFrames encoderOk = (ExportOutcome.cancelled, []))
    ∧ (∀ k, k < nFrames → (∀ j, j < nFrames + k → aborted j = false) →
        aborted (nFrames + k) = true →
        exportRun aborted nFrames encoderOk = (ExportOutcome.cancelled, List.range k))
    ∧ ((∀ j, j < 2 * nFrames → aborted j = false) → encoderOk = false →
        exportRun aborted nFrames encoderOk = (ExportOutcome.encoderFailed, List.range nFrames))
    ∧ ((∀ j, j < 2 * nFrames → aborted j = false) → encoderOk = true →
        exportRun aborted nFrames encoderOk = (ExportOutcome.success, [])) := by
  refine ⟨?_, ?_, ?_, ?_⟩
  · rintro ⟨k, hk, hab⟩
    have hfalse : renderPhaseOk aborted 0 nFrames = false :=
      renderPhaseOk_false_of_abort aborted nFrames 0 k hk (by rwa [Nat.zero_add])
    rw [exportRun, if_pos hfalse]
  · intro k hk hnone hab
    have htrue : renderPhaseOk aborted 0 nFrames = true :=
      renderPhaseOk_of_none aborted nFrames 0 fun j hj =>
        by rw [Nat.zero_add]; exact hnone j (by omega)
    rw [exportRun, if_neg (by simp [htrue])]
    rw [writePhase_abort aborted nFrames nFrames 0 [] k hk
      (fun j hj => by rw [Nat.zero_add]; exact hnone (nFrames + j) (by omega))
      (by rwa [Nat.zero_add])]
    rw [List.nil_append, List.range_eq_range']
  · intro hnone hok
    have htrue : renderPhaseOk aborted 0 nFrames = true :=
      renderPhaseOk_of_none aborted nFrames 0 fun j hj =>
        by rw [Nat.zero_add]; exact hnone j (by omega)
    rw [exportRun, if_neg (by simp [htrue])]
    rw [writePhase_complete aborted nFrames nFrames 0 []
      (fun j hj => by rw [Nat.zero_add]; exact hnone (nFrames + j) (by omega))]
    rw [hok]
    simp [List.range_eq_range']
  · intro hnone hok
    have htrue : renderPhaseOk aborted 0 nFrames = true :=
      renderPhaseOk_of_none aborted nFrames 0 fun j hj =>
        by rw [Nat.zero_add]; exact hnone j (by omega)
    rw [exportRun, if_neg (by simp [htrue])]
    rw [writePhase_complete aborted nFrames nFrames 0 []
      (fun j hj => by rw [Nat.zero_add]; exact hnone (nFrames + j) (by omega))]
    rw [hok]
    simp

/-- C8, witness: the amended theorem at the concrete cancelled run of the
counterexample (abort at write checkpoint `3`, 2 frames). -/
theorem exportRun_cleanup_spec_witness :
    exportRun (fun j => decide (j = 3)) 2 true = (ExportOutcome.cancelled, List.range 1) :=
  (exportRun_cleanup_spec (fun j => decide (j = 3)) 2 true).2.1 1
    (by decide) (by decide) (by decide)

lemma autoCutClips_length (freshIds : ℕ → String) (origEl : Element) :
    ∀ (rs : List SpeechRegion) (off : ℚ) (i : ℕ),
      (autoCutClips freshIds origEl rs off i).length = rs.length := by
  intro rs
  induction rs with
  | nil => intro off i; rfl
  | cons r rs ih =>
    intro off i
    rw [autoCutClips, List.length_cons, List.length_cons, ih]

lemma autoCutClips_get? (freshIds : ℕ → String) (origEl : Element) :
    ∀ (rs : List SpeechRegion) (off : ℚ) (i k : ℕ) (r : SpeechRegion),
      rs.get? k = some r →
      ∃ c, (autoCutClips freshIds origEl rs off i).get? k = some c
        ∧ c.id = freshIds (i + k)
        ∧ c.name = origEl.name ++ " [" ++ formatTime r.start ++ "]"
        ∧ c.startTime = off + ((rs.take k).map fun r2 => r2.stop - r2.start).sum
        ∧ c.duration = r.stop - r.start
        ∧ c.trimIn = jsOr origEl.trimIn 0 + r.start
        ∧ c.trimOut = jsOr origEl.trimIn 0 + r.stop
        ∧ c.etype = origEl.etype ∧ c.x = origEl.x ∧ c.y = origEl.y
        ∧ c.width = origEl.width ∧ c.height = origEl.height
        ∧ c.opacity = origEl.opacity ∧ c.visible = origEl.visible
        ∧ c.content = origEl.content ∧ c.playbackRate = origEl.playbackRate := by
  intro rs
  induction rs with
  | nil => intro off i k r hr; cases hr
  | cons r0 rs ih =>
    intro off i k r hr
    match k with
    | 0 =>
      rw [List.get?_cons_zero, Option.some_inj] at hr
      subst hr
      refine ⟨_, by rw [autoCutClips, List.get?_cons_zero], ?_⟩
      refine ⟨by rw [Nat.add_zero], rfl, by simp, rfl, rfl, rfl, rfl, rfl, rfl,
        rfl, rfl, rfl, rfl, rfl, rfl⟩
    | Nat.succ j =>
      rw [List.get?_cons_succ] at hr
      obtain ⟨c, hc, hcid, hcname, hcstart, hcrest⟩ :=
        ih (off + (r0.stop - r0.start)) (i + 1) j r hr
      refine ⟨c, by rw [autoCutClips, List.get?_cons_succ]; exact hc, ?_, hcname, ?_, hcrest⟩
      · rw [hcid, show i + 1 + j = i + (j + 1) from by omega]
      · rw [hcstart, List.take_succ_cons, List.map_cons, List.sum_cons]
        ring

/-- C9, counterexample: the clips created by auto-cut do not inherit the
source's `name` — each gets a bracketed `formatTime` suffix (zero-padded
`MM:SS.cc`), so "inherits every other field from the source" fails for the
name field.  With source name "clip" and keep-regions `[(1,3), (6,9)]` the
two clips are named "clip [00:01.00]" and "clip [00:06.00]". -/
theorem autocut_renames_clips :
    formatTime 1 = "00:01.00"
    ∧ (handleApply freshIdsC [sampleEl] sampleEl regionsC).map Element.name =
        ["clip [00:01.00]", "clip [00:06.00]"]
    ∧ ("clip [00:01.00]" : String) ≠ sampleEl.name := by
  have hf1 : formatTime 1 = "00:01.00" := by
    simp only [formatTime]
    norm_num [jsMod, jsTrunc]
    rfl
  have hf6 : formatTime 6 = "00:06.00" := by
    simp only [formatTime]
    norm_num [jsMod, jsTrunc]
    rfl
  refine ⟨hf1, ?_, by decide⟩
  simp [handleApply, autoCutClips, regionsC, sampleEl, hf1, hf6]

/-- C9, amended: applying keep-regions to a source element replaces it with
exactly one clip per region, laid out back-to-back from the source's
`startTime`; the `i`-th clip has the region's duration,
`trimIn = sourceTrimIn + s_i`, `trimOut = sourceTrimIn + e_i`, a fresh id,
and inherits the other modelled fields — except the display name, which
gains a bracketed region-start suffix. -/
theorem autocut_materialization_spec (freshIds : ℕ → String) (els : List Element)
    (origEl : Element) (regions : List SpeechRegion)
    (hall : ∀ r ∈ regions, r.rtype = RegionType.speech) (hne : regions ≠ []) :
    handleApply freshIds els origEl regions =
        (els.filter fun e => !(e.id = origEl.id : Bool)) ++
          autoCutClips freshIds origEl regions origEl.startTime 0
    ∧ (autoCutClips freshIds origEl regions origEl.startTime 0).length = regions.length
    ∧ ∀ k r, regions.get? k = some r →
        ∃ c, (autoCutClips freshIds origEl regions origEl.startTime 0).get? k = some c
          ∧ c.duration = r.stop - r.start
          ∧ c.trimIn = jsOr origEl.trimIn 0 + r.start
          ∧ c.trimOut = jsOr origEl.trimIn 0 + r.stop
          ∧ c.startTime = origEl.startTime +
              ((regions.take k).map fun r2 => r2.stop - r2.start).sum
          ∧ c.id = freshIds k
          ∧ c.name = origEl.name ++ " [" ++ formatTime r.start ++ "]"
          ∧ c.etype = origEl.etype ∧ c.x = origEl.x ∧ c.y = origEl.y
          ∧ c.width = origEl.width ∧ c.height = origEl.height
          ∧ c.opacity = origEl.opacity ∧ c.visible = origEl.visible
          ∧ c.content = origEl.content ∧ c.playbackRate = origEl.playbackRate := by
  have hfilter : regions.filter (fun r => r.rtype = RegionType.speech) = regions := by
    rw [List.filter_eq_self]
    intro r hr
    exact decide_eq_true (hall r hr)
  refine ⟨?_, autoCutClips_length freshIds origEl regions origEl.startTime 0, ?_⟩
  · rw [handleApply, hfilter]
    rw [if_neg (by simp [List.isEmpty_iff, hne])]
  · intro k r hr
    obtain ⟨c, hc, hcid, hcname, hcstart, hcd, hcti, hcto, hcrest⟩ :=
      autoCutClips_get? freshIds origEl regions origEl.startTime 0 k r hr
    exact ⟨c, hc, hcd, hcti, hcto, by rw [hcstart], by rw [hcid, Nat.zero_add], hcname, hcrest⟩

/-- C9, witness: the spec's worked example — a 10-second source with
keep-regions `[(1,3), (6,9)]` becomes two clips of durations 2 and 3 laid
out back-to-back from the source's start. -/
theorem autocut_materialization_spec_witness :
    handleApply freshIdsC [sampleEl] sampleEl regionsC =
        ([sampleEl].filter fun e => !(e.id = sampleEl.id : Bool)) ++
          autoCutClips freshIdsC sampleEl regionsC sampleEl.startTime 0
    ∧ (autoCutClips freshIdsC sampleEl regionsC sampleEl.startTime 0).length = regionsC.length
    ∧ ∀ k r, regionsC.get? k = some r →
        ∃ c, (autoCutClips freshIdsC sampleEl regionsC sampleEl.startTime 0).get? k = some c
          ∧ c.duration = r.stop - r.start
          ∧ c.trimIn = jsOr sampleEl.trimIn 0 + r.start
          ∧ c.trimOut = jsOr sampleEl.trimIn 0 + r.stop
          ∧ c.startTime = sampleEl.startTime +
              ((regionsC.take k).map fun r2 => r2.stop - r2.start).sum
          ∧ c.id = freshIdsC k
          ∧ c.name = sampleEl.name ++ " [" ++ formatTime r.start ++ "]"
          ∧ c.etype = sampleEl.etype ∧ c.x = sampleEl.x ∧ c.y = sampleEl.y
          ∧ c.width = sampleEl.width ∧ c.height = sampleEl.height
          ∧ c.opacity = sampleEl.opacity ∧ c.visible = sampleEl.visible
          ∧ c.content = sampleEl.content ∧ c.playbackRate = sampleEl.playbackRate :=
  autocut_materialization_spec freshIdsC [sampleEl] sampleEl regionsC
    (by intro r hr; simp [regionsC] at hr; rcases hr with h | h <;> rw [h])
    (by simp [regionsC])

/-- C10, counterexample: in the comma-millisecond (SRT) parser the leading
index line is not optional.  A well-formed cue block whose first line is the
timestamp line is dropped (`parseSRT` matches timestamps on `lines[1]`
unconditionally and requires at least 3 lines), while the dot-millisecond
(VTT) parser accepts the same cue without an id line; with the index line
present the SRT block parses and its markup is stripped. -/
theorem parseSRT_requires_index_line :
    parseSRTBlock srtNoIndexBlock = Option.none
    ∧ parseSRTBlock ["00:00:01,000 --> 00:00:02,500", "Hello <i>world</i>"] = Option.none
    ∧ parseVTTBlock vttNoIdBlock = some ⟨1, (5/2 : ℚ), "Hello world"⟩
    ∧ parseSRTBlock srtWithIndexBlock = some ⟨1, (5/2 : ℚ), "Hello world"⟩ := by
  refine ⟨rfl, rfl, ?_, ?_⟩
  · have h : parseVTTBlock vttNoIdBlock =
        some ⟨tsToSeconds ⟨0, 0, 1, 0⟩, tsToSeconds ⟨0, 0, 2, 500⟩, "Hello world"⟩ := rfl
    rw [h]
    norm_num [tsToSeconds]
  · have h : parseSRTBlock srtWithIndexBlock =
        some ⟨tsToSeconds ⟨0, 0, 1, 0⟩, tsToSeconds ⟨0, 0, 2, 500⟩, "Hello world"⟩ := rfl
    rw [h]
    norm_num [tsToSeconds]

/-- C10, amended: the optional leading id line holds only for the
dot-millisecond (VTT) parser, which locates the timestamp line by searching
for `-->`; the comma-millisecond (SRT) parser instead requires the index
line — the timestamps must sit on the second line of an at-least-3-line
block — and both parsers strip inline markup from the joined cue text. -/
theorem subtitle_block_parsing_spec :
    (∀ (idLine ts : String) (rest : List String),
        hasArrow idLine = false → hasArrow ts = true →
        parseVTTBlock (idLine :: ts :: rest) = parseVTTBlock (ts :: rest))
    ∧ ∀ (idx ts : String) (textLines : List String) (t1 t2 : TimeStamp),
        textLines ≠ [] →
        findMatch tryPairSRT ts.toList = some (t1, t2) →
        parseSRTBlock (idx :: ts :: textLines) =
          some ⟨tsToSeconds t1, tsToSeconds t2, stripTags (joinLinesNL textLines)⟩ := by
  constructor
  · intro idLine ts rest hid hts
    have hidx1 : findTimeLineIdx (idLine :: ts :: rest) = 1 := by
      rw [findTimeLineIdx, findTimeLineIdxAux, hid]
      simp only [Bool.false_eq_true, if_false]
      rw [findTimeLineIdxAux, hts]
      rfl
    have hidx0 : findTimeLineIdx (ts :: rest) = 0 := by
      rw [findTimeLineIdx, findTimeLineIdxAux, hts]
      rfl
    simp only [parseVTTBlock, hidx0, hidx1, List.get?_cons_succ, List.get?_cons_zero,
      List.drop_succ_cons, List.drop_zero]
  · intro idx ts textLines t1 t2 hne hmatch
    have hpos : 0 < textLines.length := List.length_pos.mpr hne
    have hlen : ¬ (idx :: ts :: textLines).length < 3 := by
      simp only [List.length_cons]
      omega
    rw [parseSRTBlock, if_neg hlen]
    simp only [List.get?_cons_succ, List.get?_cons_zero]
    rw [hmatch]
    simp [List.drop]

/-- C10, witness: the amended theorem on a concrete VTT block with a cue id
line and a concrete SRT block with an index line. -/
theorem subtitle_block_parsing_spec_witness :
    parseVTTBlock ("id7" :: "00:00:01.000 --> 00:00:02.500" :: ["Hi"]) =
        parseVTTBlock ("00:00:01.000 --> 00:00:02.500" :: ["Hi"])
    ∧ parseSRTBlock ("7" :: "00:00:01,000 --> 00:00:02,500" :: ["Hello <i>world</i>"]) =
        some ⟨tsToSeconds ⟨0, 0, 1, 0⟩, tsToSeconds ⟨0, 0, 2, 500⟩,
          stripTags (joinLinesNL ["Hello <i>world</i>"])⟩ :=
  ⟨subtitle_block_parsing_spec.1 "id7" "00:00:01.000 --> 00:00:02.500" ["Hi"] rfl rfl,
   subtitle_block_parsing_spec.2 "7" "00:00:01,000 --> 00:00:02,500" ["Hello <i>world</i>"]
     ⟨0, 0, 1, 0⟩ ⟨0, 0, 2, 500⟩ (by simp) rfl⟩
